import Mathlib

/-!
Verification of the failure-pattern matching and recommendation core of the
AI-node-xd repository against its specification.

The TypeScript sources are shallowly embedded:
* JavaScript numbers are modelled by exact rationals (`ℚ`) for the
  accumulation arithmetic and by real numbers (`ℝ`) where a square root is
  taken (`Math.sqrt`), so floating-point rounding is idealised away; the
  spec's tolerances (1e-6) absorb this.
* JavaScript strings are modelled by `String` / `List Char`; where the code
  reads UTF-16 code units (`charCodeAt`) the text is modelled as the list of
  its code-unit values (`List ℕ`).
* `Map<string, T>` is modelled by an insertion-ordered association list, as
  JavaScript `Map` iteration order is insertion order.
* Division by zero follows Lean's convention `x / 0 = 0`; where the source
  would produce `NaN` (division by a zero magnitude) the relevant theorems
  only use that the result is not a unit vector, which holds in both
  readings.
-/

set_option maxHeartbeats 1000000

namespace AInodeXd

/-! ### Fingerprint generator — `VectorStoreService.generateEmbedding`

Source: `src/services/api/VectorStoreService.ts`, lines 25–36.

```
const embedding = new Array(1536).fill(0);
for (let i = 0; i < text.length; i++) {
  const charCode = text.charCodeAt(i);
  const index = (charCode * i) % 1536;
  embedding[index] = (embedding[index] + charCode / 255) % 1;
}
const magnitude = Math.sqrt(embedding.reduce((sum, val) => sum + val * val, 0));
return embedding.map(val => val / magnitude);
```
-/

/-- Embedding dimensionality: `new Array(1536)`. -/
def DIM : ℕ := 1536

/-- The index `0 : Fin DIM`. -/
def idx0 : Fin DIM := ⟨0, by norm_num [DIM]⟩

/-- JavaScript `x % 1` for a non-negative float: the fractional part. -/
def jsFract (q : ℚ) : ℚ := q - ⌊q⌋

/-- Target index for the character with code `c` at position `i`:
`(charCode * i) % 1536`. -/
def charIndex (i c : ℕ) : Fin DIM :=
  ⟨(c * i) % DIM, Nat.mod_lt _ (by norm_num [DIM])⟩

/-- One iteration of the accumulation loop:
`embedding[index] = (embedding[index] + charCode / 255) % 1`. -/
def accumStep (v : Fin DIM → ℚ) (p : ℕ × ℕ) : Fin DIM → ℚ :=
  Function.update v (charIndex p.1 p.2)
    (jsFract (v (charIndex p.1 p.2) + (p.2 : ℚ) / 255))

/-- The accumulated (pre-normalization) vector produced by the `for` loop of
`generateEmbedding`, the input text given as its list of UTF-16 code-unit
values. -/
def accumEmbedding (text : List ℕ) : Fin DIM → ℚ :=
  text.enum.foldl accumStep (fun _ => 0)

/-- Squared Euclidean magnitude of a vector:
`embedding.reduce((sum, val) => sum + val * val, 0)`. -/
def magnitudeSq (v : Fin DIM → ℚ) : ℚ := ∑ j, v j ^ 2

/-- `generateEmbedding`: accumulate, then divide every component by the
Euclidean magnitude (`Math.sqrt` forces the passage to `ℝ`). -/
noncomputable def generateEmbedding (text : List ℕ) : Fin DIM → ℝ :=
  fun j =>
    (accumEmbedding text j : ℝ) / Real.sqrt ((magnitudeSq (accumEmbedding text) : ℝ))

/-- Euclidean norm of a real vector. -/
noncomputable def euclidNorm (w : Fin DIM → ℝ) : ℝ := Real.sqrt (∑ j, w j ^ 2)

/-- The unit vector with `1` at index `0` and `0` elsewhere. -/
noncomputable def unitAt0 : Fin DIM → ℝ := fun j => if j = idx0 then 1 else 0

theorem magnitudeSq_nonneg (v : Fin DIM → ℚ) : 0 ≤ magnitudeSq v :=
  Finset.sum_nonneg fun _ _ => sq_nonneg _

theorem jsFract_natCast_div (c : ℕ) :
    jsFract ((c : ℚ) / 255) = ((c % 255 : ℕ) : ℚ) / 255 := by
  have h : (c : ℚ) = ((c % 255 : ℕ) : ℚ) + 255 * ((c / 255 : ℕ) : ℚ) := by
    exact_mod_cast (Nat.mod_add_div c 255).symm
  have hfloor : ⌊((c % 255 : ℕ) : ℚ) / 255⌋ = 0 := by
    rw [Int.floor_eq_zero_iff, Set.mem_Ico]
    constructor
    · positivity
    · rw [div_lt_one (by norm_num)]
      exact_mod_cast Nat.mod_lt c (by norm_num)
  unfold jsFract
  rw [show (c : ℚ) / 255 = ((c % 255 : ℕ) : ℚ) / 255 + ((c / 255 : ℕ) : ℚ) by
    rw [h]; ring]
  rw [Int.floor_add_nat, hfloor]
  simp only [zero_add, Int.cast_natCast]
  ring

theorem accumEmbedding_single (c : ℕ) :
    accumEmbedding [c] =
      Function.update (fun _ => 0) idx0 (((c % 255 : ℕ) : ℚ) / 255) := by
  have hidx : charIndex 0 c = idx0 := by
    simp [charIndex, idx0]
  show accumStep (fun _ => 0) (0, c) = _
  unfold accumStep
  rw [hidx]
  simp only [zero_add]
  rw [jsFract_natCast_div]

theorem magnitudeSq_update_zero (i : Fin DIM) (a : ℚ) :
    magnitudeSq (Function.update (fun _ => 0) i a) = a ^ 2 := by
  unfold magnitudeSq
  rw [Finset.sum_eq_single i]
  · simp
  · intro b _ hb
    simp [Function.update_noteq hb]
  · intro h
    exact absurd (Finset.mem_univ i) h

theorem sum_sq_generateEmbedding (t : List ℕ)
    (h : magnitudeSq (accumEmbedding t) ≠ 0) :
    ∑ j, generateEmbedding t j ^ 2 = 1 := by
  set v := accumEmbedding t with hv
  set S : ℚ := magnitudeSq v with hS
  have hS0 : (0 : ℚ) ≤ S := magnitudeSq_nonneg v
  have hSR : (0 : ℝ) ≤ (S : ℝ) := by exact_mod_cast hS0
  have hSne : (S : ℝ) ≠ 0 := by exact_mod_cast h
  have hsum : ∑ j, ((v j : ℝ)) ^ 2 = (S : ℝ) := by
    rw [hS]
    unfold magnitudeSq
    push_cast
    rfl
  unfold generateEmbedding
  simp only [← hv, ← hS]
  calc ∑ j, ((v j : ℝ) / Real.sqrt (S : ℝ)) ^ 2
      = ∑ j, ((v j : ℝ)) ^ 2 / Real.sqrt (S : ℝ) ^ 2 :=
        Finset.sum_congr rfl fun j _ => div_pow _ _ _
    _ = (∑ j, ((v j : ℝ)) ^ 2) / Real.sqrt (S : ℝ) ^ 2 := by
        rw [← Finset.sum_div]
    _ = (S : ℝ) / (S : ℝ) := by rw [Real.sq_sqrt hSR, hsum]
    _ = 1 := div_self hSne

/-- **C2 (counterexample)**: the claim "for every non-empty input string the
Euclidean norm of `generateEmbedding` is 1 within 1e-6" fails on the
one-character string with character code 255 (`"ÿ"`): its accumulated vector
is zero (`(0 + 255/255) % 1 = 0`), so the code divides by a zero magnitude
and the result is not a unit vector. -/
theorem generateEmbedding_unitNorm_fails_at_255 :
    ([255] : List ℕ) ≠ [] ∧
      ¬ |euclidNorm (generateEmbedding [255]) - 1| ≤ 1 / 1000000 := by
  have hacc : accumEmbedding [255] = fun _ => 0 := by
    rw [accumEmbedding_single]
    norm_num
  have hgen : generateEmbedding [255] = fun _ => 0 := by
    funext j
    unfold generateEmbedding
    rw [hacc]
    norm_num
  have hnorm : euclidNorm (generateEmbedding [255]) = 0 := by
    rw [hgen]
    unfold euclidNorm
    simp
  refine ⟨by simp, ?_⟩
  rw [hnorm]
  norm_num

/-- **C2 (amended)**: for every input text whose accumulated
(pre-normalization) vector is nonzero — non-emptiness alone is not enough —
the Euclidean norm of `generateEmbedding` equals 1 within tolerance 1e-6
(indeed exactly 1 in exact arithmetic). -/
theorem generateEmbedding_unitNorm (t : List ℕ)
    (h : magnitudeSq (accumEmbedding t) ≠ 0) :
    |euclidNorm (generateEmbedding t) - 1| ≤ 1 / 1000000 := by
  have : euclidNorm (generateEmbedding t) = 1 := by
    unfold euclidNorm
    rw [sum_sq_generateEmbedding t h]
    exact Real.sqrt_one
  rw [this]
  norm_num

/-- **C2 (witness)**: the amended theorem applied to the one-character text
`"a"` (code 97), whose accumulated vector is nonzero. -/
theorem generateEmbedding_unitNorm_witness :
    magnitudeSq (accumEmbedding [97]) ≠ 0 ∧
      |euclidNorm (generateEmbedding [97]) - 1| ≤ 1 / 1000000 := by
  have h : magnitudeSq (accumEmbedding [97]) ≠ 0 := by
    rw [accumEmbedding_single, magnitudeSq_update_zero]
    norm_num
  exact ⟨h, generateEmbedding_unitNorm [97] h⟩

/-- **C9**: on the empty input the accumulated vector is zero, so
`generateEmbedding` divides by a zero Euclidean magnitude (in the model
`x / 0 = 0`, in JavaScript the components are `NaN`); either way the result
is not a unit vector, so the unit-norm guarantee can only hold for non-empty
input. -/
theorem generateEmbedding_empty_divides_by_zero :
    magnitudeSq (accumEmbedding []) = 0 ∧
      euclidNorm (generateEmbedding []) ≠ 1 := by
  have hacc : accumEmbedding [] = fun _ => 0 := rfl
  have hmag : magnitudeSq (accumEmbedding []) = 0 := by
    rw [hacc]
    unfold magnitudeSq
    simp
  have hgen : generateEmbedding [] = fun _ => 0 := by
    funext j
    unfold generateEmbedding
    rw [hacc]
    norm_num
  refine ⟨hmag, ?_⟩
  rw [hgen]
  unfold euclidNorm
  simp

/-- **C10**: any one-character text whose character code is not a multiple of
255 embeds to the unit vector with 1 at index 0 (the first character always
targets index `(c * 0) % 1536 = 0`); in particular any two such texts embed
identically. -/
theorem generateEmbedding_single_char (c₁ c₂ : ℕ)
    (h₁ : c₁ % 255 ≠ 0) (h₂ : c₂ % 255 ≠ 0) :
    generateEmbedding [c₁] = unitAt0 ∧
      generateEmbedding [c₁] = generateEmbedding [c₂] := by
  have key : ∀ c : ℕ, c % 255 ≠ 0 → generateEmbedding [c] = unitAt0 := by
    intro c hc
    set a : ℚ := ((c % 255 : ℕ) : ℚ) / 255 with ha
    have ha0 : (0 : ℚ) ≤ a := by positivity
    have hane : a ≠ 0 := by
      rw [ha]
      apply div_ne_zero _ (by norm_num)
      exact_mod_cast hc
    have haR : (0 : ℝ) ≤ (a : ℝ) := by exact_mod_cast ha0
    have haRne : (a : ℝ) ≠ 0 := by exact_mod_cast hane
    funext j
    unfold generateEmbedding
    rw [accumEmbedding_single, ← ha, magnitudeSq_update_zero]
    rw [show ((a ^ 2 : ℚ) : ℝ) = (a : ℝ) ^ 2 by push_cast; ring]
    rw [Real.sqrt_sq haR]
    unfold unitAt0
    by_cases hj : j = idx0
    · subst hj
      rw [Function.update_same]
      rw [if_pos rfl]
      exact div_self haRne
    · rw [Function.update_noteq hj]
      rw [if_neg hj]
      norm_num
  exact ⟨key c₁ h₁, (key c₁ h₁).trans (key c₂ h₂).symm⟩

/-- **C10 (witness)**: the theorem applied to `"a"` (code 97) and `"b"`
(code 98). -/
theorem generateEmbedding_single_char_witness :
    (97 % 255 ≠ 0) ∧ (98 % 255 ≠ 0) ∧
      generateEmbedding [97] = generateEmbedding [98] :=
  ⟨by norm_num, by norm_num,
    (generateEmbedding_single_char 97 98 (by norm_num) (by norm_num)).2⟩

/-! ### Diff analyzer — `RecommendationEngine.extractChangedFiles`

Source: `src/services/api/RecommendationEngine.ts`, lines 9–29.  The method
splits the diff on newlines; a line starting with `diff --git` contributes
the capture of the regex `b\/(.+)$`, a line starting with `+++` contributes
the capture of `\+\+\+ b\/(.+)$` unless it equals `/dev/null`; finally the
collected paths are deduplicated with `[...new Set(files)]`, which keeps
first occurrences in order.
-/

/-- JavaScript `String.prototype.split` with a one-character separator. -/
def splitOnChar (c : Char) : List Char → List (List Char)
  | [] => [[]]
  | a :: t =>
    if a = c then [] :: splitOnChar c t
    else
      match splitOnChar c t with
      | [] => [[a]]
      | h :: r => (a :: h) :: r

/-- Leftmost match of a regex of the form `pat(.+)` (with `dotAll` the dot
also matches newlines, as under the JavaScript `s` flag; otherwise the
capture stops at the next newline).  When the capture at an occurrence of
`pat` would be empty the engine moves on to the next occurrence, which is
what the recursive call models. -/
def findCapture (pat : List Char) (dotAll : Bool) : List Char → Option (List Char)
  | [] => none
  | a :: t =>
    if pat.isPrefixOf (a :: t) then
      let cap0 := (a :: t).drop pat.length
      let cap := if dotAll then cap0 else cap0.takeWhile (fun ch => ch ≠ '\n')
      if cap = [] then findCapture pat dotAll t else some cap
    else findCapture pat dotAll t

/-- The path(s) a single diff line contributes (at most one). -/
def lineContribution (line : List Char) : List (List Char) :=
  if ("diff --git".data).isPrefixOf line then
    match findCapture ("b/".data) false line with
    | some rest => [rest]
    | none => []
  else if ("+++".data).isPrefixOf line then
    match findCapture ("+++ b/".data) false line with
    | some rest => if rest = ("/dev/null".data) then [] else [rest]
    | none => []
  else []

/-- Order-preserving deduplication keeping first occurrences, the behaviour
of `[...new Set(files)]`. -/
def dedupAux (seen : List (List Char)) : List (List Char) → List (List Char)
  | [] => []
  | a :: t => if a ∈ seen then dedupAux seen t else a :: dedupAux (a :: seen) t

/-- See `dedupAux`. -/
def dedupKeepFirst (l : List (List Char)) : List (List Char) := dedupAux [] l

/-- `extractChangedFiles(gitDiff)`. -/
def extractChangedFiles (gitDiff : String) : List String :=
  (dedupKeepFirst
      ((splitOnChar '\n' gitDiff.data).flatMap lineContribution)).map
    (fun l => String.mk l)

/-- **C7**: on a diff containing both `diff --git a/src/x.ts b/src/x.ts` and
`+++ b/src/x.ts`, `extractChangedFiles` returns exactly the single-element
list `["src/x.ts"]` — the path appears once despite two matching lines. -/
theorem extractChangedFiles_dedup_scenario :
    extractChangedFiles "diff --git a/src/x.ts b/src/x.ts\n+++ b/src/x.ts"
      = ["src/x.ts"] := by
  decide

theorem flatMap_filter_of_empty {α β : Type} [DecidableEq α]
    (f : α → List β) (bad : α) (hf : f bad = []) (l : List α) :
    l.flatMap f = (l.filter (fun x => x ≠ bad)).flatMap f := by
  induction l with
  | nil => rfl
  | cons a t ih =>
    by_cases ha : a = bad
    · subst ha
      simp [List.flatMap_cons, hf, ih]
    · simp [List.flatMap_cons, ha, ih]

/-- **C8**: a line equal to `+++ /dev/null` (the deleted-file marker)
contributes no path: its per-line contribution is empty, and dropping all
such lines from any diff leaves `extractChangedFiles` unchanged. -/
theorem deleted_file_marker_contributes_nothing (d : String) :
    lineContribution ("+++ /dev/null".data) = [] ∧
      extractChangedFiles d =
        (dedupKeepFirst
            (((splitOnChar '\n' d.data).filter
                (fun l => l ≠ ("+++ /dev/null".data))).flatMap
              lineContribution)).map (fun l => String.mk l) := by
  have h : lineContribution ("+++ /dev/null".data) = [] := by decide
  refine ⟨h, ?_⟩
  unfold extractChangedFiles
  rw [flatMap_filter_of_empty lineContribution ("+++ /dev/null".data) h]

/-! ### Recommendation ranker — `RecommendationEngine.recommendTests`

Source: `src/services/api/RecommendationEngine.ts`, lines 76–141.  A
`Map<string, RecommendedTest>` keyed by test name is filled in three tiers
(pattern matches, changed files, failing tests), then its values are sorted
by confidence descending and truncated to 10.  The JavaScript `Map` is
modelled by an insertion-ordered list with unique keys: `set` on an existing
key updates in place, on a new key appends.  The `toFixed(1)` number
formatting inside a reason string is modelled by `toString` on the exact
rational; no claim depends on the rendered digits. -/

structure FailedTest where
  testName : String
  errorMessage : String
  stackTrace : Option String
deriving DecidableEq

structure FailurePatternData where
  testName : Option String
  occurrenceCount : ℕ
deriving DecidableEq

structure PatternMatch where
  similarity : ℚ
  pattern : FailurePatternData
deriving DecidableEq

structure RecommendedTest where
  testName : String
  reason : String
  confidenceScore : ℚ
deriving DecidableEq

/-- `recommendations.has(name)` / truthiness of `recommendations.get(name)`. -/
def mapHas (m : List RecommendedTest) (name : String) : Bool :=
  m.any (fun r => r.testName = name)

/-- `recommendations.get(name)`. -/
def mapGet (m : List RecommendedTest) (name : String) : Option RecommendedTest :=
  m.find? (fun r => r.testName = name)

/-- `recommendations.set(v.testName, v)`: update in place when the key
exists, append otherwise. -/
def mapSet (m : List RecommendedTest) (v : RecommendedTest) : List RecommendedTest :=
  if mapHas m v.testName then
    m.map (fun r => if r.testName = v.testName then v else r)
  else m ++ [v]

/-- Confidence of a pattern-match signal: `similarity * 0.8`. -/
def patConf (mt : PatternMatch) : ℚ := mt.similarity * 0.8

/-- Reason string of a pattern-match signal. -/
def patternReason (similarity : ℚ) (occ : ℕ) : String :=
  "Similar failure pattern (" ++ toString (similarity * 100) ++
    "% match) occurred " ++ toString occ ++ " time(s)"

/-- The `RecommendedTest` built from a pattern match nominating `name`. -/
def patternEntry (name : String) (mt : PatternMatch) : RecommendedTest :=
  { testName := name
    reason := patternReason mt.similarity mt.pattern.occurrenceCount
    confidenceScore := patConf mt }

/-- Tier 1: one pattern match.  Overwrites an existing entry only when the
new confidence is strictly higher. -/
def addPatternMatch (acc : List RecommendedTest) (mt : PatternMatch) :
    List RecommendedTest :=
  match mt.pattern.testName with
  | none => acc
  | some name =>
    match mapGet acc name with
    | some e =>
      if e.confidenceScore < patConf mt then mapSet acc (patternEntry name mt)
      else acc
    | none => mapSet acc (patternEntry name mt)

/-- JavaScript `endsWith`. -/
def strEndsWith (s suffix : String) : Bool := suffix.data.isSuffixOf s.data

/-- Drop the last `n` characters. -/
def strDropRight (s : String) (n : ℕ) : String :=
  String.mk (s.data.take (s.data.length - n))

/-- JavaScript `startsWith`. -/
def strStartsWith (s p : String) : Bool := p.data.isPrefixOf s.data

/-- Drop the first `n` characters. -/
def strDrop (s : String) (n : ℕ) : String := String.mk (s.data.drop n)

/-- `file.replace(/\.(ts|js|tsx|jsx)$/, '.MID.$1')`.  The four extension
cases are mutually exclusive, so the regex alternation order is
irrelevant. -/
def replaceExtWith (mid : String) (file : String) : String :=
  if strEndsWith file ".tsx" then strDropRight file 4 ++ "." ++ mid ++ ".tsx"
  else if strEndsWith file ".jsx" then strDropRight file 4 ++ "." ++ mid ++ ".jsx"
  else if strEndsWith file ".ts" then strDropRight file 3 ++ "." ++ mid ++ ".ts"
  else if strEndsWith file ".js" then strDropRight file 3 ++ "." ++ mid ++ ".js"
  else file

/-- `file.replace(/^src\//, replacement)`. -/
def stripSrcTo (replacement : String) (file : String) : String :=
  if strStartsWith file "src/" then replacement ++ strDrop file 4 else file

/-- The four conventional test-file naming variants derived from a changed
file. -/
def testPatternsFor (file : String) : List String :=
  [replaceExtWith "test" file,
    replaceExtWith "spec" file,
    replaceExtWith "test" (stripSrcTo "tests/" file),
    stripSrcTo "__tests__/" file]

/-- The `RecommendedTest` built from changed file `file` via variant `tp`. -/
def changedFileEntry (file tp : String) : RecommendedTest :=
  { testName := "Test: " ++ tp
    reason := "Related to changed file: " ++ file
    confidenceScore := 0.6 }

/-- Tier 2: one changed file.  Each derived name is added only when not
already present. -/
def addChangedFile (acc : List RecommendedTest) (file : String) :
    List RecommendedTest :=
  (testPatternsFor file).foldl
    (fun acc2 tp =>
      if mapHas acc2 ("Test: " ++ tp) then acc2
      else mapSet acc2 (changedFileEntry file tp)) acc

/-- The `RecommendedTest` built from a failing test. -/
def failedTestEntry (t : FailedTest) : RecommendedTest :=
  { testName := t.testName
    reason := "Re-run previously failed test"
    confidenceScore := 0.9 }

/-- Tier 3: one failing test, added only when not already present. -/
def addFailedTest (acc : List RecommendedTest) (t : FailedTest) :
    List RecommendedTest :=
  if mapHas acc t.testName then acc else mapSet acc (failedTestEntry t)

/-- `gitDiff ? this.extractChangedFiles(gitDiff) : []`. -/
def changedFilesOf (gitDiff : Option String) : List String :=
  match gitDiff with
  | some d => extractChangedFiles d
  | none => []

/-- The deduplicated recommendation map after the three tiers, in insertion
order (the `Map` contents before sorting). -/
def recommendMap (failedTests : List FailedTest) (gitDiff : Option String)
    (similarPatterns : List PatternMatch) : List RecommendedTest :=
  failedTests.foldl addFailedTest
    ((changedFilesOf gitDiff).foldl addChangedFile
      (similarPatterns.foldl addPatternMatch []))

/-- The comparator `(a, b) => b.confidenceScore - a.confidenceScore` of the
final stable sort: descending by confidence. -/
def confDescBool (a b : RecommendedTest) : Bool :=
  b.confidenceScore ≤ a.confidenceScore

/-- `recommendTests`: build the map, sort its values by confidence
descending (JavaScript `Array.prototype.sort` is stable), truncate to 10. -/
def recommendTests (failedTests : List FailedTest) (gitDiff : Option String)
    (similarPatterns : List PatternMatch) : List RecommendedTest :=
  ((recommendMap failedTests gitDiff similarPatterns).mergeSort
      confDescBool).take 10

/-! ### Lemmas about the map model -/

theorem mapHas_iff {m : List RecommendedTest} {name : String} :
    mapHas m name = true ↔ ∃ r ∈ m, r.testName = name := by
  unfold mapHas
  rw [List.any_eq_true]
  simp

theorem mapGet_eq_some {m : List RecommendedTest} {name : String}
    {r : RecommendedTest} (h : mapGet m name = some r) :
    r ∈ m ∧ r.testName = name := by
  unfold mapGet at h
  exact ⟨List.mem_of_find?_eq_some h, by simpa using List.find?_some h⟩

theorem mapGet_isSome_of_has {m : List RecommendedTest} {name : String}
    (h : mapHas m name = true) : ∃ r, mapGet m name = some r := by
  obtain ⟨r, hr, he⟩ := mapHas_iff.mp h
  unfold mapGet
  have h2 : (List.find? (fun r : RecommendedTest => r.testName = name) m).isSome
      = true := by
    rw [List.find?_isSome]
    exact ⟨r, hr, by simpa using he⟩
  rw [Option.isSome_iff_exists] at h2
  exact h2

theorem mapGet_mapSet (m : List RecommendedTest) (v : RecommendedTest)
    (name : String) :
    mapGet (mapSet m v) name =
      if name = v.testName then some v else mapGet m name := by
  unfold mapSet
  by_cases hhas : mapHas m v.testName = true
  · rw [if_pos hhas]
    unfold mapGet
    rw [List.find?_map]
    rw [show ((fun r : RecommendedTest => decide (r.testName = name)) ∘
          fun r => if r.testName = v.testName then v else r) =
        (fun r : RecommendedTest => decide (r.testName = name)) by
      funext r
      by_cases h : r.testName = v.testName
      · simp [h]
      · simp [h]]
    by_cases hn : name = v.testName
    · rw [if_pos hn]
      obtain ⟨r, hr⟩ := mapGet_isSome_of_has (hn ▸ hhas)
      obtain ⟨hm, hrn⟩ := mapGet_eq_some hr
      unfold mapGet at hr
      rw [hr]
      show some (if r.testName = v.testName then v else r) = some v
      rw [if_pos (hrn.trans hn)]
    · rw [if_neg hn]
      cases hr : List.find? (fun r : RecommendedTest => r.testName = name) m with
      | none => rfl
      | some r =>
        have hrn : r.testName = name := by simpa using List.find?_some hr
        show some (if r.testName = v.testName then v else r) = some r
        rw [if_neg (fun h => hn (hrn.symm.trans h))]
  · rw [if_neg hhas]
    unfold mapGet
    rw [List.find?_append]
    by_cases hn : name = v.testName
    · rw [if_pos hn]
      have h1 : List.find? (fun r : RecommendedTest => r.testName = name) m
          = none := by
        rw [List.find?_eq_none]
        intro r hr hp
        exact hhas (mapHas_iff.mpr ⟨r, hr, by rw [← hn]; simpa using hp⟩)
      rw [h1]
      rw [List.find?_cons]
      have hd : decide (v.testName = name) = true := by
        simp only [decide_eq_true_eq]
        exact hn.symm
      rw [hd]
      rfl
    · rw [if_neg hn]
      have h2 : List.find? (fun r : RecommendedTest => r.testName = name) [v]
          = none := by
        rw [List.find?_cons]
        have hd : decide (v.testName = name) = false := by
          simp only [decide_eq_false_iff_not]
          exact fun h => hn h.symm
        rw [hd]
        rfl
      rw [h2, Option.or_none]

theorem names_mapSet (m : List RecommendedTest) (v : RecommendedTest) :
    (mapSet m v).map RecommendedTest.testName =
      if mapHas m v.testName then m.map RecommendedTest.testName
      else m.map RecommendedTest.testName ++ [v.testName] := by
  unfold mapSet
  by_cases hhas : mapHas m v.testName = true
  · rw [if_pos hhas, if_pos hhas, List.map_map]
    apply List.map_congr_left
    intro r _
    by_cases h : r.testName = v.testName
    · simp [h]
    · simp [h]
  · rw [if_neg hhas, if_neg hhas, List.map_append]
    rfl

theorem nodup_names_mapSet {m : List RecommendedTest} (v : RecommendedTest)
    (h : (m.map RecommendedTest.testName).Nodup) :
    ((mapSet m v).map RecommendedTest.testName).Nodup := by
  rw [names_mapSet]
  by_cases hhas : mapHas m v.testName = true
  · rwa [if_pos hhas]
  · rw [if_neg hhas]
    have hnm : v.testName ∉ m.map RecommendedTest.testName := by
      intro hmem
      rw [List.mem_map] at hmem
      obtain ⟨r, hr, he⟩ := hmem
      exact hhas (mapHas_iff.mpr ⟨r, hr, he⟩)
    simp [List.nodup_append, h, hnm]

theorem mem_mapSet {m : List RecommendedTest} {v r : RecommendedTest}
    (h : r ∈ mapSet m v) : r = v ∨ r ∈ m := by
  unfold mapSet at h
  by_cases hhas : mapHas m v.testName = true
  · rw [if_pos hhas, List.mem_map] at h
    obtain ⟨r1, hr1, he⟩ := h
    by_cases hc : r1.testName = v.testName
    · rw [if_pos hc] at he
      exact Or.inl he.symm
    · rw [if_neg hc] at he
      exact Or.inr (he ▸ hr1)
  · rw [if_neg hhas, List.mem_append] at h
    rcases h with h | h
    · exact Or.inr h
    · exact Or.inl (by simpa using h)

theorem mapGet_of_mem_nodup :
    ∀ {m : List RecommendedTest},
      (m.map RecommendedTest.testName).Nodup →
      ∀ {r : RecommendedTest}, r ∈ m → mapGet m r.testName = some r := by
  intro m
  induction m with
  | nil => intro _ r h; cases h
  | cons a t ih =>
    intro hnd r hr
    rw [List.map_cons, List.nodup_cons] at hnd
    unfold mapGet
    rw [List.find?_cons]
    rcases List.mem_cons.mp hr with rfl | hrt
    · simp
    · have hne : ¬ a.testName = r.testName := fun he =>
        hnd.1 (he ▸ List.mem_map_of_mem RecommendedTest.testName hrt)
      simp only [hne, decide_eq_true_eq, if_neg, decide_False]
      exact ih hnd.2 hrt

/-! ### Generic lemmas about the tier folds -/

theorem foldl_preserves {β : Type}
    (step : List RecommendedTest → β → List RecommendedTest)
    (P : List RecommendedTest → Prop)
    (h : ∀ acc b, P acc → P (step acc b)) :
    ∀ (l : List β) (acc : List RecommendedTest), P acc → P (l.foldl step acc) := by
  intro l
  induction l with
  | nil => intro acc hp; exact hp
  | cons b t ih => intro acc hp; exact ih _ (h acc b hp)

theorem foldl_mem_sound {β : Type}
    (step : List RecommendedTest → β → List RecommendedTest)
    (Q : β → RecommendedTest → Prop)
    (h : ∀ acc b r, r ∈ step acc b → r ∈ acc ∨ Q b r) :
    ∀ (l : List β) (acc : List RecommendedTest) (r : RecommendedTest),
      r ∈ l.foldl step acc → r ∈ acc ∨ ∃ b ∈ l, Q b r := by
  intro l
  induction l with
  | nil => intro acc r hr; exact Or.inl hr
  | cons b t ih =>
    intro acc r hr
    rcases ih _ r hr with h1 | ⟨b1, hb1, hq⟩
    · rcases h acc b r h1 with h2 | hq
      · exact Or.inl h2
      · exact Or.inr ⟨b, List.mem_cons_self b t, hq⟩
    · exact Or.inr ⟨b1, List.mem_cons_of_mem b hb1, hq⟩

theorem foldl_get_preserve {β : Type}
    (step : List RecommendedTest → β → List RecommendedTest)
    (h : ∀ acc b name r, mapGet acc name = some r →
      mapGet (step acc b) name = some r) :
    ∀ (l : List β) (acc : List RecommendedTest) (name : String)
      (r : RecommendedTest), mapGet acc name = some r →
      mapGet (l.foldl step acc) name = some r := by
  intro l
  induction l with
  | nil => intro acc name r hr; exact hr
  | cons b t ih => intro acc name r hr; exact ih _ name r (h acc b name r hr)

theorem foldl_get_congr {β : Type}
    (step : List RecommendedTest → β → List RecommendedTest) (name : String) :
    ∀ (l : List β) (acc : List RecommendedTest),
      (∀ b ∈ l, ∀ acc2, mapGet (step acc2 b) name = mapGet acc2 name) →
      mapGet (l.foldl step acc) name = mapGet acc name := by
  intro l
  induction l with
  | nil => intro acc _; rfl
  | cons b t ih =>
    intro acc hc
    rw [List.foldl_cons,
      ih _ (fun b1 hb1 acc2 => hc b1 (List.mem_cons_of_mem b hb1) acc2),
      hc b (List.mem_cons_self b t) acc]

/-! ### Tier 1 (pattern matches): characterization of the fold -/

/-- A pattern match nominates `name` when its stored pattern carries that
test name. -/
def nominates (name : String) (mt : PatternMatch) : Prop :=
  mt.pattern.testName = some name

/-- Ghost function describing the effect of one tier-1 step on the map entry
for a fixed `name`. -/
def p1Step (name : String) (cur : Option RecommendedTest) (mt : PatternMatch) :
    Option RecommendedTest :=
  match mt.pattern.testName with
  | none => cur
  | some n =>
    if n = name then
      match cur with
      | some e =>
        if e.confidenceScore < patConf mt then some (patternEntry name mt)
        else cur
      | none => some (patternEntry name mt)
    else cur

theorem addPatternMatch_eq_none {acc : List RecommendedTest} {mt : PatternMatch}
    (h : mt.pattern.testName = none) : addPatternMatch acc mt = acc := by
  unfold addPatternMatch
  rw [h]

theorem addPatternMatch_eq_some {acc : List RecommendedTest} {mt : PatternMatch}
    {nm : String} (h : mt.pattern.testName = some nm) :
    addPatternMatch acc mt =
      match mapGet acc nm with
      | some e =>
        if e.confidenceScore < patConf mt then mapSet acc (patternEntry nm mt)
        else acc
      | none => mapSet acc (patternEntry nm mt) := by
  unfold addPatternMatch
  rw [h]

theorem p1Step_eq_none {name : String} {cur : Option RecommendedTest}
    {mt : PatternMatch} (h : mt.pattern.testName = none) :
    p1Step name cur mt = cur := by
  unfold p1Step
  rw [h]

theorem p1Step_eq_some {name : String} {cur : Option RecommendedTest}
    {mt : PatternMatch} {nm : String} (h : mt.pattern.testName = some nm) :
    p1Step name cur mt =
      if nm = name then
        match cur with
        | some e =>
          if e.confidenceScore < patConf mt then some (patternEntry name mt)
          else cur
        | none => some (patternEntry name mt)
      else cur := by
  unfold p1Step
  rw [h]

theorem mapGet_mapSet_self (m : List RecommendedTest) (v : RecommendedTest) :
    mapGet (mapSet m v) v.testName = some v := by
  rw [mapGet_mapSet, if_pos rfl]

theorem mapGet_mapSet_ne (m : List RecommendedTest) (v : RecommendedTest)
    {name : String} (h : name ≠ v.testName) :
    mapGet (mapSet m v) name = mapGet m name := by
  rw [mapGet_mapSet, if_neg h]

theorem addPatternMatch_get (acc : List RecommendedTest) (mt : PatternMatch)
    (name : String) :
    mapGet (addPatternMatch acc mt) name = p1Step name (mapGet acc name) mt := by
  rcases hmt : mt.pattern.testName with _ | nm
  · rw [addPatternMatch_eq_none hmt, p1Step_eq_none hmt]
  · rw [addPatternMatch_eq_some hmt, p1Step_eq_some hmt]
    by_cases hn : nm = name
    · subst hn
      rw [if_pos rfl]
      rcases hget : mapGet acc nm with _ | e
      · simp only [hget]
        exact mapGet_mapSet_self acc (patternEntry nm mt)
      · simp only [hget]
        by_cases hlt : e.confidenceScore < patConf mt
        · rw [if_pos hlt, if_pos hlt]
          exact mapGet_mapSet_self acc (patternEntry nm mt)
        · rw [if_neg hlt, if_neg hlt, hget]
    · rw [if_neg hn]
      rcases hget : mapGet acc nm with _ | e
      · simp only [hget]
        exact mapGet_mapSet_ne acc _ (fun he => hn he.symm)
      · simp only [hget]
        by_cases hlt : e.confidenceScore < patConf mt
        · rw [if_pos hlt]
          exact mapGet_mapSet_ne acc _ (fun he => hn he.symm)
        · rw [if_neg hlt]

theorem addPatternMatch_nodup (acc : List RecommendedTest) (mt : PatternMatch)
    (h : (acc.map RecommendedTest.testName).Nodup) :
    ((addPatternMatch acc mt).map RecommendedTest.testName).Nodup := by
  rcases hmt : mt.pattern.testName with _ | nm
  · rwa [addPatternMatch_eq_none hmt]
  · rw [addPatternMatch_eq_some hmt]
    rcases hget : mapGet acc nm with _ | e
    · simp only [hget]
      exact nodup_names_mapSet _ h
    · simp only [hget]
      by_cases hlt : e.confidenceScore < patConf mt
      · rw [if_pos hlt]
        exact nodup_names_mapSet _ h
      · rwa [if_neg hlt]

theorem addPatternMatch_mem {acc : List RecommendedTest} {mt : PatternMatch}
    {r : RecommendedTest} (h : r ∈ addPatternMatch acc mt) :
    r ∈ acc ∨ ∃ nm, mt.pattern.testName = some nm ∧ r = patternEntry nm mt := by
  rcases hmt : mt.pattern.testName with _ | nm
  · rw [addPatternMatch_eq_none hmt] at h
    exact Or.inl h
  · rw [addPatternMatch_eq_some hmt] at h
    rcases hget : mapGet acc nm with _ | e
    · simp only [hget] at h
      rcases mem_mapSet h with h1 | h1
      · exact Or.inr ⟨nm, rfl, h1⟩
      · exact Or.inl h1
    · simp only [hget] at h
      by_cases hlt : e.confidenceScore < patConf mt
      · rw [if_pos hlt] at h
        rcases mem_mapSet h with h1 | h1
        · exact Or.inr ⟨nm, rfl, h1⟩
        · exact Or.inl h1
      · rw [if_neg hlt] at h
        exact Or.inl h

theorem p1Step_self_or_entry (name : String) (cur : Option RecommendedTest)
    (mt : PatternMatch) :
    p1Step name cur mt = cur ∨
      (nominates name mt ∧ p1Step name cur mt = some (patternEntry name mt)) := by
  rcases hmt : mt.pattern.testName with _ | nm
  · exact Or.inl (p1Step_eq_none hmt)
  · rw [p1Step_eq_some hmt]
    by_cases hn : nm = name
    · subst hn
      rw [if_pos rfl]
      rcases cur with _ | e
      · exact Or.inr ⟨hmt, rfl⟩
      · by_cases hlt : e.confidenceScore < patConf mt
        · refine Or.inr ⟨hmt, ?_⟩
          show (if e.confidenceScore < patConf mt
              then some (patternEntry nm mt) else some e) = _
          rw [if_pos hlt]
        · refine Or.inl ?_
          show (if e.confidenceScore < patConf mt
              then some (patternEntry nm mt) else some e) = some e
          rw [if_neg hlt]
    · rw [if_neg hn]
      exact Or.inl rfl

theorem p1Step_mono (name : String) (cur : Option RecommendedTest)
    (mt : PatternMatch) (e0 : RecommendedTest) (h : cur = some e0) :
    ∃ e1, p1Step name cur mt = some e1 ∧
      e0.confidenceScore ≤ e1.confidenceScore := by
  subst h
  rcases hmt : mt.pattern.testName with _ | nm
  · exact ⟨e0, p1Step_eq_none hmt, le_refl _⟩
  · rw [p1Step_eq_some hmt]
    by_cases hn : nm = name
    · rw [if_pos hn]
      by_cases hlt : e0.confidenceScore < patConf mt
      · refine ⟨patternEntry name mt, ?_, le_of_lt hlt⟩
        show (if e0.confidenceScore < patConf mt
            then some (patternEntry name mt) else some e0) = _
        rw [if_pos hlt]
      · refine ⟨e0, ?_, le_refl _⟩
        show (if e0.confidenceScore < patConf mt
            then some (patternEntry name mt) else some e0) = some e0
        rw [if_neg hlt]
    · rw [if_neg hn]
      exact ⟨e0, rfl, le_refl _⟩

theorem p1Step_lb (name : String) (cur : Option RecommendedTest)
    (mt : PatternMatch) (h : nominates name mt) :
    ∃ e1, p1Step name cur mt = some e1 ∧ patConf mt ≤ e1.confidenceScore := by
  rw [p1Step_eq_some h, if_pos rfl]
  rcases cur with _ | e
  · exact ⟨patternEntry name mt, rfl, le_refl _⟩
  · by_cases hlt : e.confidenceScore < patConf mt
    · refine ⟨patternEntry name mt, ?_, le_refl _⟩
      show (if e.confidenceScore < patConf mt
          then some (patternEntry name mt) else some e) = _
      rw [if_pos hlt]
    · refine ⟨e, ?_, le_of_not_lt hlt⟩
      show (if e.confidenceScore < patConf mt
          then some (patternEntry name mt) else some e) = some e
      rw [if_neg hlt]

theorem p1fold_mono (name : String) :
    ∀ (l : List PatternMatch) (cur : Option RecommendedTest)
      (e0 : RecommendedTest), cur = some e0 →
      ∃ e, l.foldl (p1Step name) cur = some e ∧
        e0.confidenceScore ≤ e.confidenceScore := by
  intro l
  induction l with
  | nil => intro cur e0 h; exact ⟨e0, h, le_refl _⟩
  | cons mt t ih =>
    intro cur e0 h
    obtain ⟨e1, he1, hle1⟩ := p1Step_mono name cur mt e0 h
    rw [List.foldl_cons]
    obtain ⟨e, he, hle⟩ := ih _ e1 he1
    exact ⟨e, he, le_trans hle1 hle⟩

theorem p1fold_lb (name : String) :
    ∀ (l : List PatternMatch) (cur : Option RecommendedTest)
      (mt1 : PatternMatch), mt1 ∈ l → nominates name mt1 →
      ∃ e, l.foldl (p1Step name) cur = some e ∧
        patConf mt1 ≤ e.confidenceScore := by
  intro l
  induction l with
  | nil => intro cur mt1 h; cases h
  | cons mt t ih =>
    intro cur mt1 hmem hnom
    rw [List.foldl_cons]
    rcases List.mem_cons.mp hmem with rfl | hmem2
    · obtain ⟨e1, he1, hle1⟩ := p1Step_lb name cur mt1 hnom
      rw [he1]
      obtain ⟨e, he, hle⟩ := p1fold_mono name t _ e1 rfl
      exact ⟨e, he, le_trans hle1 hle⟩
    · exact ih _ mt1 hmem2 hnom

theorem p1fold_provenance (name : String) :
    ∀ (l : List PatternMatch) (cur : Option RecommendedTest),
      l.foldl (p1Step name) cur = cur ∨
        ∃ mt ∈ l, nominates name mt ∧
          l.foldl (p1Step name) cur = some (patternEntry name mt) := by
  intro l
  induction l with
  | nil => intro cur; exact Or.inl rfl
  | cons mt t ih =>
    intro cur
    rw [List.foldl_cons]
    rcases p1Step_self_or_entry name cur mt with hstep | ⟨hnom, hstep⟩
    · rw [hstep]
      rcases ih cur with h1 | ⟨mt1, hm, hn, h1⟩
      · exact Or.inl h1
      · exact Or.inr ⟨mt1, List.mem_cons_of_mem mt hm, hn, h1⟩
    · rw [hstep]
      rcases ih (some (patternEntry name mt)) with h1 | ⟨mt1, hm, hn, h1⟩
      · exact Or.inr ⟨mt, List.mem_cons_self mt t, hnom, h1⟩
      · exact Or.inr ⟨mt1, List.mem_cons_of_mem mt hm, hn, h1⟩

theorem phase1_get (sP : List PatternMatch) (acc : List RecommendedTest)
    (name : String) :
    mapGet (sP.foldl addPatternMatch acc) name =
      sP.foldl (p1Step name) (mapGet acc name) := by
  induction sP generalizing acc with
  | nil => rfl
  | cons mt t ih =>
    rw [List.foldl_cons, List.foldl_cons, ih, addPatternMatch_get]

theorem phase1_nominated (sP : List PatternMatch) (name : String)
    (h : ∃ mt ∈ sP, nominates name mt) :
    ∃ e, mapGet (sP.foldl addPatternMatch []) name = some e ∧
      (∃ mt ∈ sP, nominates name mt ∧ e = patternEntry name mt) ∧
      ∀ mt1 ∈ sP, nominates name mt1 → patConf mt1 ≤ e.confidenceScore := by
  obtain ⟨mt0, hm0, hn0⟩ := h
  rw [phase1_get]
  show ∃ e, sP.foldl (p1Step name) none = some e ∧ _
  obtain ⟨e, he, _⟩ := p1fold_lb name sP none mt0 hm0 hn0
  refine ⟨e, he, ?_, ?_⟩
  · rcases p1fold_provenance name sP none with h1 | ⟨mt1, hm1, hn1, h1⟩
    · rw [h1] at he
      cases he
    · rw [h1] at he
      cases he
      exact ⟨mt1, hm1, hn1, rfl⟩
  · intro mt1 hm1 hn1
    obtain ⟨e2, he2, hle2⟩ := p1fold_lb name sP none mt1 hm1 hn1
    rw [he] at he2
    cases he2
    exact hle2

/-! ### Tiers 2 and 3: step lemmas -/

theorem addChangedFile_nodup (acc : List RecommendedTest) (f : String)
    (h : (acc.map RecommendedTest.testName).Nodup) :
    ((addChangedFile acc f).map RecommendedTest.testName).Nodup := by
  unfold addChangedFile
  refine foldl_preserves _ (fun m => (m.map RecommendedTest.testName).Nodup)
    ?_ _ _ h
  intro acc2 tp hnd
  by_cases hhas : mapHas acc2 ("Test: " ++ tp) = true
  · rwa [if_pos hhas]
  · rw [if_neg hhas]
    exact nodup_names_mapSet _ hnd

theorem addChangedFile_mem {acc : List RecommendedTest} {f : String}
    {r : RecommendedTest} (h : r ∈ addChangedFile acc f) :
    r ∈ acc ∨ ∃ tp ∈ testPatternsFor f, r = changedFileEntry f tp := by
  unfold addChangedFile at h
  refine foldl_mem_sound _ (fun tp r2 => r2 = changedFileEntry f tp) ?_ _ _ _ h
  intro acc2 tp r2 h2
  by_cases hhas : mapHas acc2 ("Test: " ++ tp) = true
  · rw [if_pos hhas] at h2
    exact Or.inl h2
  · rw [if_neg hhas] at h2
    rcases mem_mapSet h2 with h3 | h3
    · exact Or.inr h3
    · exact Or.inl h3

theorem addChangedFile_get_preserve (acc : List RecommendedTest) (f : String)
    (name : String) (r : RecommendedTest) (h : mapGet acc name = some r) :
    mapGet (addChangedFile acc f) name = some r := by
  unfold addChangedFile
  refine foldl_get_preserve _ ?_ _ _ _ _ h
  intro acc2 tp name2 r2 h2
  by_cases hhas : mapHas acc2 ("Test: " ++ tp) = true
  · rwa [if_pos hhas]
  · rw [if_neg hhas]
    by_cases hn : name2 = (changedFileEntry f tp).testName
    · exfalso
      obtain ⟨hm, hrn⟩ := mapGet_eq_some h2
      exact hhas (mapHas_iff.mpr ⟨r2, hm, hrn.trans hn⟩)
    · rw [mapGet_mapSet_ne _ _ hn]
      exact h2

theorem addChangedFile_get_none (acc : List RecommendedTest) (f : String)
    (name : String)
    (hno : ∀ tp ∈ testPatternsFor f, "Test: " ++ tp ≠ name) :
    mapGet (addChangedFile acc f) name = mapGet acc name := by
  unfold addChangedFile
  refine foldl_get_congr _ name _ _ ?_
  intro tp htp acc2
  by_cases hhas : mapHas acc2 ("Test: " ++ tp) = true
  · rw [if_pos hhas]
  · rw [if_neg hhas]
    exact mapGet_mapSet_ne _ _ (fun he => hno tp htp he.symm)

theorem addFailedTest_nodup (acc : List RecommendedTest) (t : FailedTest)
    (h : (acc.map RecommendedTest.testName).Nodup) :
    ((addFailedTest acc t).map RecommendedTest.testName).Nodup := by
  unfold addFailedTest
  by_cases hhas : mapHas acc t.testName = true
  · rwa [if_pos hhas]
  · rw [if_neg hhas]
    exact nodup_names_mapSet _ h

theorem addFailedTest_mem {acc : List RecommendedTest} {t : FailedTest}
    {r : RecommendedTest} (h : r ∈ addFailedTest acc t) :
    r ∈ acc ∨ r = failedTestEntry t := by
  unfold addFailedTest at h
  by_cases hhas : mapHas acc t.testName = true
  · rw [if_pos hhas] at h
    exact Or.inl h
  · rw [if_neg hhas] at h
    rcases mem_mapSet h with h1 | h1
    · exact Or.inr h1
    · exact Or.inl h1

theorem addFailedTest_get_preserve (acc : List RecommendedTest)
    (t : FailedTest) (name : String) (r : RecommendedTest)
    (h : mapGet acc name = some r) :
    mapGet (addFailedTest acc t) name = some r := by
  unfold addFailedTest
  by_cases hhas : mapHas acc t.testName = true
  · rwa [if_pos hhas]
  · rw [if_neg hhas]
    by_cases hn : name = (failedTestEntry t).testName
    · exfalso
      obtain ⟨hm, hrn⟩ := mapGet_eq_some h
      exact hhas (mapHas_iff.mpr ⟨r, hm, hrn.trans hn⟩)
    · rw [mapGet_mapSet_ne _ _ hn]
      exact h

theorem addFailedTest_get_ne (acc : List RecommendedTest) (t : FailedTest)
    (name : String) (h : t.testName ≠ name) :
    mapGet (addFailedTest acc t) name = mapGet acc name := by
  unfold addFailedTest
  by_cases hhas : mapHas acc t.testName = true
  · rw [if_pos hhas]
  · rw [if_neg hhas]
    exact mapGet_mapSet_ne _ _ (fun he => h he.symm)

theorem addFailedTest_sets (acc : List RecommendedTest) (t : FailedTest)
    (hget : mapGet acc t.testName = none) :
    mapGet (addFailedTest acc t) t.testName = some (failedTestEntry t) := by
  unfold addFailedTest
  have hhas : ¬ mapHas acc t.testName = true := by
    intro hh
    obtain ⟨r, hr⟩ := mapGet_isSome_of_has hh
    rw [hget] at hr
    cases hr
  rw [if_neg hhas]
  exact mapGet_mapSet_self acc (failedTestEntry t)

theorem phase3_sets (name : String) :
    ∀ (fT : List FailedTest) (acc : List RecommendedTest),
      mapGet acc name = none → (∃ t ∈ fT, t.testName = name) →
      ∃ t1 : FailedTest, t1.testName = name ∧
        mapGet (fT.foldl addFailedTest acc) name = some (failedTestEntry t1) := by
  intro fT
  induction fT with
  | nil =>
    intro acc _ h
    obtain ⟨t, ht, _⟩ := h
    cases ht
  | cons t ts ih =>
    intro acc hget hex
    rw [List.foldl_cons]
    by_cases ht : t.testName = name
    · subst ht
      refine ⟨t, rfl, ?_⟩
      exact foldl_get_preserve _ addFailedTest_get_preserve ts _ _ _
        (addFailedTest_sets acc t hget)
    · have h1 : mapGet (addFailedTest acc t) name = none := by
        rw [addFailedTest_get_ne acc t name ht]
        exact hget
      have hex2 : ∃ t2 ∈ ts, t2.testName = name := by
        obtain ⟨t2, hm2, he2⟩ := hex
        rcases List.mem_cons.mp hm2 with rfl | hm3
        · exact absurd he2 ht
        · exact ⟨t2, hm3, he2⟩
      exact ih _ h1 hex2

/-! ### Properties of `recommendMap` and `recommendTests` -/

theorem recommendMap_nodup (fT : List FailedTest) (gd : Option String)
    (sP : List PatternMatch) :
    ((recommendMap fT gd sP).map RecommendedTest.testName).Nodup := by
  unfold recommendMap
  refine foldl_preserves _ (fun m => (m.map RecommendedTest.testName).Nodup)
    addFailedTest_nodup _ _ ?_
  refine foldl_preserves _ (fun m => (m.map RecommendedTest.testName).Nodup)
    addChangedFile_nodup _ _ ?_
  refine foldl_preserves _ (fun m => (m.map RecommendedTest.testName).Nodup)
    addPatternMatch_nodup _ _ ?_
  exact List.nodup_nil

theorem mem_recommendMap {fT : List FailedTest} {gd : Option String}
    {sP : List PatternMatch} {r : RecommendedTest}
    (h : r ∈ recommendMap fT gd sP) :
    (∃ mt ∈ sP, nominates r.testName mt ∧ r = patternEntry r.testName mt) ∨
      (∃ f ∈ changedFilesOf gd, ∃ tp ∈ testPatternsFor f,
        r = changedFileEntry f tp) ∨
      (∃ t ∈ fT, r = failedTestEntry t) := by
  unfold recommendMap at h
  rcases foldl_mem_sound addFailedTest
      (fun t r2 => r2 = failedTestEntry t)
      (fun acc t r2 h2 => addFailedTest_mem h2) fT _ r h
    with h1 | ⟨t, ht, he⟩
  · rcases foldl_mem_sound addChangedFile
        (fun f r2 => ∃ tp ∈ testPatternsFor f, r2 = changedFileEntry f tp)
        (fun acc f r2 h2 => addChangedFile_mem h2) _ _ r h1
      with h2 | ⟨f, hf, tp, htp, he⟩
    · rcases foldl_mem_sound addPatternMatch
          (fun mt r2 => ∃ nm, mt.pattern.testName = some nm ∧
            r2 = patternEntry nm mt)
          (fun acc mt r2 h2 => addPatternMatch_mem h2) sP _ r h2
        with h3 | ⟨mt, hm, nm, hnm, he⟩
      · cases h3
      · subst he
        exact Or.inl ⟨mt, hm, hnm, rfl⟩
    · exact Or.inr (Or.inl ⟨f, hf, tp, htp, he⟩)
  · exact Or.inr (Or.inr ⟨t, ht, he⟩)

theorem mem_of_mem_recommendTests {fT : List FailedTest} {gd : Option String}
    {sP : List PatternMatch} {r : RecommendedTest}
    (h : r ∈ recommendTests fT gd sP) : r ∈ recommendMap fT gd sP := by
  unfold recommendTests at h
  have h2 := List.Sublist.mem h (List.take_sublist 10 _)
  exact (List.mergeSort_perm _ confDescBool).mem_iff.mp h2

theorem recommendTests_length_le (fT : List FailedTest) (gd : Option String)
    (sP : List PatternMatch) : (recommendTests fT gd sP).length ≤ 10 := by
  unfold recommendTests
  exact List.length_take_le 10 _

theorem recommendTests_names_nodup (fT : List FailedTest) (gd : Option String)
    (sP : List PatternMatch) :
    ((recommendTests fT gd sP).map RecommendedTest.testName).Nodup := by
  unfold recommendTests
  have hsort : (((recommendMap fT gd sP).mergeSort confDescBool).map
      RecommendedTest.testName).Nodup :=
    (((List.mergeSort_perm (recommendMap fT gd sP) confDescBool).map
        RecommendedTest.testName).nodup_iff).mpr (recommendMap_nodup fT gd sP)
  exact List.Nodup.sublist
    (List.Sublist.map RecommendedTest.testName (List.take_sublist 10 _)) hsort

theorem recommendTests_sorted (fT : List FailedTest) (gd : Option String)
    (sP : List PatternMatch) :
    List.Sorted (fun a b : RecommendedTest =>
      b.confidenceScore ≤ a.confidenceScore) (recommendTests fT gd sP) := by
  unfold recommendTests
  have htrans : ∀ a b c : RecommendedTest, confDescBool a b = true →
      confDescBool b c = true → confDescBool a c = true := by
    intro a b c hab hbc
    unfold confDescBool at *
    simp only [decide_eq_true_eq] at *
    exact le_trans hbc hab
  have htotal : ∀ a b : RecommendedTest,
      (confDescBool a b || confDescBool b a) = true := by
    intro a b
    unfold confDescBool
    rcases le_total a.confidenceScore b.confidenceScore with h | h
    · simp [h]
    · simp [h]
  have hsorted := List.sorted_mergeSort htrans htotal (recommendMap fT gd sP)
  have hsorted2 : List.Pairwise (fun a b : RecommendedTest =>
      b.confidenceScore ≤ a.confidenceScore)
      ((recommendMap fT gd sP).mergeSort confDescBool) := by
    refine hsorted.imp ?_
    intro a b hab
    unfold confDescBool at hab
    simpa using hab
  exact List.Pairwise.sublist (List.take_sublist 10 _) hsorted2

theorem recommendTests_tier_property (fT : List FailedTest) (gd : Option String)
    (sP : List PatternMatch) :
    ∀ r ∈ recommendTests fT gd sP, ∀ mt ∈ sP, nominates r.testName mt →
      patConf mt ≤ r.confidenceScore ∧
        ∃ mt1 ∈ sP, nominates r.testName mt1 ∧
          r = patternEntry r.testName mt1 := by
  intro r hr mt hm hn
  obtain ⟨e, hget1, ⟨mt1, hm1, hn1, hee⟩, hlb⟩ :=
    phase1_nominated sP r.testName ⟨mt, hm, hn⟩
  have hget2 : mapGet ((changedFilesOf gd).foldl addChangedFile
      (sP.foldl addPatternMatch [])) r.testName = some e :=
    foldl_get_preserve _ addChangedFile_get_preserve _ _ _ _ hget1
  have hget3 : mapGet (recommendMap fT gd sP) r.testName = some e :=
    foldl_get_preserve _ addFailedTest_get_preserve _ _ _ _ hget2
  have hrmap : r ∈ recommendMap fT gd sP := mem_of_mem_recommendTests hr
  have hgetr : mapGet (recommendMap fT gd sP) r.testName = some r :=
    mapGet_of_mem_nodup (recommendMap_nodup fT gd sP) hrmap
  rw [hget3] at hgetr
  cases hgetr
  exact ⟨hlb mt hm hn, mt1, hm1, hn1, hee⟩

/-- **C3**: for any combination of failed tests, git diff and pattern
matches, `recommendTests` returns at most 10 entries, no two returned
entries share a test name, and the sequence is sorted by confidence score
descending. -/
theorem recommendTests_cap_dedup_sorted (fT : List FailedTest)
    (gd : Option String) (sP : List PatternMatch) :
    (recommendTests fT gd sP).length ≤ 10 ∧
      ((recommendTests fT gd sP).map RecommendedTest.testName).Nodup ∧
      List.Sorted (fun a b : RecommendedTest =>
        b.confidenceScore ≤ a.confidenceScore) (recommendTests fT gd sP) :=
  ⟨recommendTests_length_le fT gd sP, recommendTests_names_nodup fT gd sP,
    recommendTests_sorted fT gd sP⟩

/-- **C1 (counterexample)**: the claim "when multiple signals nominate the
same test name, the entry kept has the highest confidence score among the
nominating signals" is false.  With one pattern match of similarity 0.9
nominating `"T"` (confidence 0.9 × 0.8 = 0.72) and the failing test `"T"`
(re-run signal, confidence 0.9), the kept entry has confidence 0.72 — the
re-run tier skips names that are already present instead of overwriting
them with its higher confidence. -/
theorem recommendTests_highest_conf_fails :
    ((recommendTests [⟨"T", "boom", none⟩] none
          [⟨0.9, ⟨some "T", 3⟩⟩]).map
        (fun r => (r.testName, r.confidenceScore)) = [("T", 0.72)]) ∧
      (0.72 : ℚ) < 0.9 := by
  refine ⟨?_, by norm_num⟩
  have hmap : recommendMap [⟨"T", "boom", none⟩] none [⟨0.9, ⟨some "T", 3⟩⟩]
      = [patternEntry "T" ⟨0.9, ⟨some "T", 3⟩⟩] := by rfl
  unfold recommendTests
  rw [hmap, List.mergeSort_singleton]
  simp [patternEntry, patConf]
  norm_num

/-- The recommendation map after tier 1 (pattern matches) only. -/
def tier1Map (sP : List PatternMatch) : List RecommendedTest :=
  sP.foldl addPatternMatch []

/-- The recommendation map after tiers 1 and 2 (pattern matches, then
changed files). -/
def tier2Map (gd : Option String) (sP : List PatternMatch) :
    List RecommendedTest :=
  (changedFilesOf gd).foldl addChangedFile (tier1Map sP)

theorem recommendMap_eq_tiers (fT : List FailedTest) (gd : Option String)
    (sP : List PatternMatch) :
    recommendMap fT gd sP = fT.foldl addFailedTest (tier2Map gd sP) := rfl

theorem tier2Map_get_preserve (gd : Option String) (sP : List PatternMatch)
    (name : String) (e : RecommendedTest)
    (h : mapGet (tier1Map sP) name = some e) :
    mapGet (tier2Map gd sP) name = some e :=
  foldl_get_preserve _ addChangedFile_get_preserve _ _ _ _ h

theorem recommendMap_get_preserve (fT : List FailedTest) (gd : Option String)
    (sP : List PatternMatch) (name : String) (e : RecommendedTest)
    (h : mapGet (tier2Map gd sP) name = some e) :
    mapGet (recommendMap fT gd sP) name = some e :=
  foldl_get_preserve _ addFailedTest_get_preserve _ _ _ _ h

theorem returned_entry_eq_mapGet (fT : List FailedTest) (gd : Option String)
    (sP : List PatternMatch) {r e : RecommendedTest}
    (hr : r ∈ recommendTests fT gd sP)
    (hget : mapGet (recommendMap fT gd sP) r.testName = some e) : r = e := by
  have hgetr := mapGet_of_mem_nodup (recommendMap_nodup fT gd sP)
    (mem_of_mem_recommendTests hr)
  rw [hget] at hgetr
  cases hgetr
  rfl

/-- **C1 (amended)**: `recommendTests` keeps at most one entry per unique
test name, and every kept entry is the entry constructed by one of the
nominating signals.  The changed-file (0.6) and re-run-failed (0.9) tiers
only add names not already present: a map entry present after the
pattern-match tier, and a map entry present after the changed-file tier,
are still the map entries for their names afterwards, and the entry
returned for such a name is exactly that earlier-tier entry — even when a
later signal (e.g. a failing test at confidence 0.9 hitting a 0.6
changed-file entry) nominates the same name with a higher confidence.
Within the pattern-match tier the highest confidence wins: a name
nominated by any pattern match keeps a pattern entry whose confidence is
maximal among its pattern signals. -/
theorem recommendTests_dedup_and_tier_precedence (fT : List FailedTest)
    (gd : Option String) (sP : List PatternMatch) :
    ((recommendTests fT gd sP).map RecommendedTest.testName).Nodup ∧
      (∀ r ∈ recommendTests fT gd sP,
        (∃ mt ∈ sP, nominates r.testName mt ∧ r = patternEntry r.testName mt) ∨
          (∃ f ∈ changedFilesOf gd, ∃ tp ∈ testPatternsFor f,
            r = changedFileEntry f tp) ∨
          (∃ t ∈ fT, r = failedTestEntry t)) ∧
      (∀ name e, mapGet (tier1Map sP) name = some e →
        mapGet (tier2Map gd sP) name = some e) ∧
      (∀ name e, mapGet (tier2Map gd sP) name = some e →
        mapGet (recommendMap fT gd sP) name = some e) ∧
      (∀ r ∈ recommendTests fT gd sP, ∀ e,
        mapGet (tier1Map sP) r.testName = some e → r = e) ∧
      (∀ r ∈ recommendTests fT gd sP, ∀ e,
        mapGet (tier2Map gd sP) r.testName = some e → r = e) ∧
      ∀ r ∈ recommendTests fT gd sP, ∀ mt ∈ sP, nominates r.testName mt →
        patConf mt ≤ r.confidenceScore ∧
          ∃ mt1 ∈ sP, nominates r.testName mt1 ∧
            r = patternEntry r.testName mt1 :=
  ⟨recommendTests_names_nodup fT gd sP,
    fun _ hr => mem_recommendMap (mem_of_mem_recommendTests hr),
    fun name e hget => tier2Map_get_preserve gd sP name e hget,
    fun name e hget => recommendMap_get_preserve fT gd sP name e hget,
    fun r hr e hget => returned_entry_eq_mapGet fT gd sP hr
      (recommendMap_get_preserve fT gd sP r.testName e
        (tier2Map_get_preserve gd sP r.testName e hget)),
    fun r hr e hget => returned_entry_eq_mapGet fT gd sP hr
      (recommendMap_get_preserve fT gd sP r.testName e hget),
    recommendTests_tier_property fT gd sP⟩

/-- **C6**: a failing test whose name is nominated by no pattern match and
collides with no changed-file-derived name ends up in the recommendation
map with confidence exactly 0.9 and the re-run reason, and every entry
returned for that name carries confidence exactly 0.9. -/
theorem failedTest_gets_09 (name : String) (fT : List FailedTest)
    (gd : Option String) (sP : List PatternMatch)
    (hmem : ∃ t ∈ fT, t.testName = name)
    (hpat : ∀ mt ∈ sP, mt.pattern.testName ≠ some name)
    (hcf : ∀ f ∈ changedFilesOf gd, ∀ tp ∈ testPatternsFor f,
      "Test: " ++ tp ≠ name) :
    (∃ e, mapGet (recommendMap fT gd sP) name = some e ∧
        e.confidenceScore = 0.9 ∧ e.reason = "Re-run previously failed test") ∧
      ∀ r ∈ recommendTests fT gd sP, r.testName = name →
        r.confidenceScore = 0.9 := by
  have h1 : mapGet (sP.foldl addPatternMatch []) name = none := by
    have hstep : ∀ mt ∈ sP, ∀ acc2,
        mapGet (addPatternMatch acc2 mt) name = mapGet acc2 name := by
      intro mt hm acc2
      rw [addPatternMatch_get]
      rcases hmt : mt.pattern.testName with _ | nm
      · exact p1Step_eq_none hmt
      · rw [p1Step_eq_some hmt,
          if_neg (fun he => hpat mt hm (by rw [hmt, he]))]
    rw [foldl_get_congr _ name sP [] hstep]
    rfl
  have h2 : mapGet ((changedFilesOf gd).foldl addChangedFile
      (sP.foldl addPatternMatch [])) name = none := by
    rw [foldl_get_congr _ name _ _
      (fun f hf acc2 => addChangedFile_get_none acc2 f name (hcf f hf))]
    exact h1
  obtain ⟨t1, ht1, hget⟩ := phase3_sets name fT _ h2 hmem
  refine ⟨⟨failedTestEntry t1, hget, rfl, rfl⟩, ?_⟩
  intro r hr hrn
  have hgetr := mapGet_of_mem_nodup (recommendMap_nodup fT gd sP)
    (mem_of_mem_recommendTests hr)
  rw [hrn] at hgetr
  have hget2 : mapGet (recommendMap fT gd sP) name
      = some (failedTestEntry t1) := hget
  rw [hget2] at hgetr
  cases hgetr
  rfl

/-- **C6 (witness)**: the theorem applied to the single failing test
`"T1"`, no diff and no pattern matches. -/
theorem failedTest_gets_09_witness :
    (∃ t ∈ [FailedTest.mk "T1" "401" none], t.testName = "T1") ∧
      ∀ r ∈ recommendTests [FailedTest.mk "T1" "401" none] none [],
        r.testName = "T1" → r.confidenceScore = 0.9 := by
  refine ⟨⟨FailedTest.mk "T1" "401" none, by simp, rfl⟩, ?_⟩
  exact (failedTest_gets_09 "T1" [FailedTest.mk "T1" "401" none] none []
    ⟨FailedTest.mk "T1" "401" none, by simp, rfl⟩
    (fun mt hm => absurd hm (List.not_mem_nil mt))
    (fun f hf => absurd hf (List.not_mem_nil f))).2

/-! ### Pattern store search — `VectorStoreService.searchSimilarPatterns`

Source: `src/services/api/VectorStoreService.ts`, lines 141–191.  The method
issues one SQL query against the `failure_patterns` table:
`WHERE project_id = $2 AND 1 - (embedding <=> $1::vector) > $3
ORDER BY similarity DESC LIMIT $4` with defaults `topK = 5` and
`threshold = 0.75`.  The query is modelled relationally over an abstract
list of stored rows; pgvector's `<=>` is the cosine distance
`1 - u·v / (‖u‖‖v‖)`.  SQL leaves the order of similarity ties unspecified;
the model picks a stable sort, which the claims do not depend on. -/

structure StoreRow where
  id : String
  projectId : String
  embedding : Fin DIM → ℝ
  summary : String
  testName : Option String
  occurrenceCount : ℕ

/-- Inner product of two stored fingerprints. -/
noncomputable def dotProduct (u v : Fin DIM → ℝ) : ℝ := ∑ j, u j * v j

/-- pgvector cosine distance `u <=> v`. -/
noncomputable def cosineDistance (u v : Fin DIM → ℝ) : ℝ :=
  1 - dotProduct u v /
    (Real.sqrt (∑ j, u j ^ 2) * Real.sqrt (∑ j, v j ^ 2))

/-- `1 - (embedding <=> query)`, the similarity computed by the query. -/
noncomputable def similarity (q e : Fin DIM → ℝ) : ℝ := 1 - cosineDistance q e

/-- One row of the query result. -/
structure SearchResult where
  id : String
  similarity : ℝ
  row : StoreRow

/-- Default `topK = 5`. -/
def defaultTopK : ℕ := 5

/-- Default `threshold = 0.75`. -/
noncomputable def defaultThreshold : ℝ := 0.75

open Classical in
/-- `searchSimilarPatterns`: filter to the project scope and to similarity
strictly above the threshold, order by similarity descending, keep the
first `topK` rows. -/
noncomputable def searchSimilarPatterns (store : List StoreRow)
    (projectId : String) (q : Fin DIM → ℝ) (topK : ℕ) (threshold : ℝ) :
    List SearchResult :=
  (((store.filter (fun row => decide (row.projectId = projectId) &&
          decide (threshold < similarity q row.embedding))).map
        (fun row => SearchResult.mk row.id (similarity q row.embedding) row)).mergeSort
      (fun a b => decide (b.similarity ≤ a.similarity))).take topK

/-- **C4**: `searchSimilarPatterns` returns only stored rows of the given
project scope whose similarity to the query strictly exceeds the threshold
(default 0.75), ordered by similarity descending, and never more than
`topK` results (default 5). -/
theorem searchSimilarPatterns_spec (store : List StoreRow)
    (projectId : String) (q : Fin DIM → ℝ) (topK : ℕ) (threshold : ℝ) :
    (∀ res ∈ searchSimilarPatterns store projectId q topK threshold,
        res.row ∈ store ∧ res.row.projectId = projectId ∧
          threshold < similarity q res.row.embedding ∧
          res.similarity = similarity q res.row.embedding) ∧
      List.Sorted (fun a b : SearchResult => b.similarity ≤ a.similarity)
        (searchSimilarPatterns store projectId q topK threshold) ∧
      (searchSimilarPatterns store projectId q topK threshold).length ≤ topK ∧
      (searchSimilarPatterns store projectId q defaultTopK
          defaultThreshold).length ≤ 5 := by
  classical
  refine ⟨?_, ?_, ?_, ?_⟩
  · intro res hres
    unfold searchSimilarPatterns at hres
    have h1 := List.Sublist.mem hres (List.take_sublist topK _)
    have h2 := (List.mergeSort_perm _ _).mem_iff.mp h1
    rw [List.mem_map] at h2
    obtain ⟨row, hrow, heq⟩ := h2
    rw [List.mem_filter] at hrow
    obtain ⟨hmem, hcond⟩ := hrow
    rw [Bool.and_eq_true, decide_eq_true_eq, decide_eq_true_eq] at hcond
    subst heq
    exact ⟨hmem, hcond.1, hcond.2, rfl⟩
  · unfold searchSimilarPatterns
    have htrans : ∀ a b c : SearchResult,
        decide (b.similarity ≤ a.similarity) = true →
        decide (c.similarity ≤ b.similarity) = true →
        decide (c.similarity ≤ a.similarity) = true := by
      intro a b c hab hbc
      rw [decide_eq_true_eq] at *
      exact le_trans hbc hab
    have htotal : ∀ a b : SearchResult,
        (decide (b.similarity ≤ a.similarity) ||
          decide (a.similarity ≤ b.similarity)) = true := by
      intro a b
      rcases le_total b.similarity a.similarity with h | h
      · simp [h]
      · simp [h]
    have hsorted := List.sorted_mergeSort htrans htotal
      ((store.filter (fun row => decide (row.projectId = projectId) &&
          decide (threshold < similarity q row.embedding))).map
        (fun row => SearchResult.mk row.id (similarity q row.embedding) row))
    refine List.Pairwise.sublist (List.take_sublist topK _) ?_
    refine hsorted.imp ?_
    intro a b hab
    rwa [decide_eq_true_eq] at hab
  · unfold searchSimilarPatterns
    exact List.length_take_le topK _
  · unfold searchSimilarPatterns
    exact List.length_take_le defaultTopK _

/-! ### Ingestion handler — `POST /api/v1/report`

Source: `src/services/api/index.ts`, lines 117–230.  After authentication
and schema validation the handler checks the organisation's credit balance
(402 when exhausted), resolves the failed tests (parsing `failureLogs`
when the `failedTests` array is empty and the logs are non-empty), rejects
with HTTP 400 when no failed test can be resolved, and only after that
inserts one `failure_patterns` row.  The handler is modelled as a pure
function from the inputs and the current pattern store to the HTTP status
and the updated store; the AI analysis text and the generated ids are
parameters, standing for the external collaborators that produce them. -/

structure ReportPayload where
  failedTests : List FailedTest
  failureLogs : String
  gitDiff : Option String
deriving DecidableEq

/-- JavaScript `String.prototype.split` with a multi-character separator
(non-overlapping, leftmost-first). -/
def splitOnSeq (sep : List Char) : List Char → List (List Char)
  | [] => [[]]
  | a :: t =>
    if sep ≠ [] ∧ sep.isPrefixOf (a :: t) then
      [] :: splitOnSeq sep ((a :: t).drop sep.length)
    else
      match splitOnSeq sep t with
      | [] => [[a]]
      | b :: r => (a :: b) :: r
termination_by s => s.length
decreasing_by
  · rename_i hcond
    have hsep : 0 < sep.length := List.length_pos.mpr hcond.1
    simp only [List.length_drop, List.length_cons]
    omega
  · simp

/-- One chunk of `failureLogs`: capture of `/Test: (.+)/` (or
`"Unknown Test"`), capture of `/Error: (.+)/s` (or the whole chunk), the
whole chunk as stack trace. -/
def parseLogChunk (log : List Char) : FailedTest :=
  { testName :=
      match findCapture ("Test: ".data) false log with
      | some c => String.mk c
      | none => "Unknown Test"
    errorMessage :=
      match findCapture ("Error: ".data) true log with
      | some c => String.mk c
      | none => String.mk log
    stackTrace := some (String.mk log) }

/-- `failureLogs.split('\n\n')` mapped through the chunk parser. -/
def parseFailureLogs (logs : String) : List FailedTest :=
  (splitOnSeq ("\n\n".data) logs.data).map parseLogChunk

/-- `let failedTests = payload.failedTests || []` followed by the
parse-from-logs fallback when the array is empty and the logs non-empty. -/
def resolveFailedTests (payload : ReportPayload) : List FailedTest :=
  if payload.failedTests = [] ∧ payload.failureLogs ≠ "" then
    parseFailureLogs payload.failureLogs
  else payload.failedTests

/-- A row of the `failure_patterns` store as created by the handler. -/
structure StoredPattern where
  id : String
  projectId : String
  summary : String
  errorMessage : String
  stackTrace : Option String
  affectedFiles : List String
  testName : String
deriving DecidableEq

/-- JavaScript `substring(0, n)`. -/
def strTake (s : String) (n : ℕ) : String := String.mk (s.data.take n)

/-- The `failure_patterns` row created by the handler from the first
resolved failed test. -/
def storedPatternOf (testRunId projectId analysis : String)
    (t0 : FailedTest) : StoredPattern :=
  { id := testRunId
    projectId := projectId
    summary := strTake analysis 500
    errorMessage := t0.errorMessage
    stackTrace := t0.stackTrace
    affectedFiles := [t0.testName]
    testName := t0.testName }

/-- The handler core: returns the HTTP status and the updated pattern
store. -/
def handleReport (creditsBalance : ℤ) (payload : ReportPayload)
    (analysis : String) (testRunId projectId : String)
    (store : List StoredPattern) : ℕ × List StoredPattern :=
  if creditsBalance ≤ 0 then (402, store)
  else
    match resolveFailedTests payload with
    | [] => (400, store)
    | t0 :: _ =>
      (200, store ++ [storedPatternOf testRunId projectId analysis t0])

/-- **C5**: a report with no failed-test descriptors and no failure logs to
parse (for a non-empty `failureLogs` the parser always yields at least one
descriptor, so "no parsable logs" means empty logs) is rejected with the
HTTP 400 validation error and the pattern store is returned unchanged — no
record is inserted before the error. -/
theorem report_validation_before_mutation (creditsBalance : ℤ)
    (payload : ReportPayload) (analysis : String)
    (testRunId projectId : String) (store : List StoredPattern)
    (hcred : 0 < creditsBalance)
    (hft : payload.failedTests = [])
    (hlog : payload.failureLogs = "") :
    handleReport creditsBalance payload analysis testRunId projectId store
      = (400, store) := by
  unfold handleReport
  rw [if_neg (by omega : ¬ creditsBalance ≤ 0)]
  have hres : resolveFailedTests payload = [] := by
    unfold resolveFailedTests
    rw [if_neg (fun hc => hc.2 hlog)]
    exact hft
  rw [hres]

/-- **C5 (witness)**: the theorem applied to a concrete empty report with
one credit and an empty store. -/
theorem report_validation_before_mutation_witness :
    (0 : ℤ) < 1 ∧
      handleReport 1 (ReportPayload.mk [] "" none) "analysis" "run1" "proj1" []
        = (400, []) :=
  ⟨by norm_num,
    report_validation_before_mutation 1 (ReportPayload.mk [] "" none)
      "analysis" "run1" "proj1" [] (by norm_num) rfl rfl⟩

end AInodeXd
